import Mathlib

/-!
Verification development for the timegrep utility (src/timegrep.c).

The C source is shallowly embedded: buffers (`char*` + `size_t`) become
`List Char` with `Nat` positions, `time_t`/`long int` become `Int`, and the
result codes TG_FOUND / TG_NOT_FOUND / TG_NULL / TG_ERROR become the
inductive `TgRes`.  The datetime extractor `get_timestamp` (a fixed compiled
pcre context applied to one line) is abstracted as a pure function
`List Char → PRes`, which is faithful because the pcre context is immutable
during a search and `pcre_exec` on the same bytes is deterministic.
All `size_t` subtractions in the embedded code use truncated `Nat`
subtraction; the termination development (claim C5) establishes the
interval invariants under which the C code never underflows, so the two
semantics agree on every reachable state.
-/

/-- Result codes of timegrep: TG_FOUND (2), TG_NOT_FOUND (1), TG_NULL (0),
TG_ERROR (-1). -/
inductive TgRes
  | found
  | notFound
  | null
  | error
deriving DecidableEq

/-- Outcome of the datetime extractor `get_timestamp` on one line:
TG_FOUND with a timestamp, TG_NOT_FOUND, or TG_ERROR. -/
inductive PRes
  | found (ts : Int)
  | notFound
  | error
deriving DecidableEq

/-- A parser that never finds a timestamp (used to instantiate universally
quantified theorems at concrete inputs). -/
def parse_none : List Char → PRes := fun _ => PRes.notFound

/-- Index of the first newline byte of a buffer, if any (memchr(.., '\n', ..)
restricted to the interesting character). -/
def firstNlIdx : List Char → Option Nat
  | [] => none
  | c :: rest => if c = '\n' then some 0 else (firstNlIdx rest).map (· + 1)

/-- Index of the last newline byte of a buffer, if any (memrchr(.., '\n', ..)
restricted to the interesting character). -/
def lastNlIdx : List Char → Option Nat
  | [] => none
  | c :: rest =>
    match lastNlIdx rest with
    | some i => some (i + 1)
    | none => if c = '\n' then some 0 else none

/-- The byte range data[start .. start+len) of a buffer (a `const char*` plus
length pair in the C source). -/
def tg_slice (data : List Char) (start len : Nat) : List Char :=
  (data.drop start).take len

/-- C long int LONG_MIN, the error sentinel of `atogmtoff`. -/
def TG_LONG_MIN : Int := -(2 ^ 63)

/-- C char arithmetic `c - '0'` on a byte. -/
def dig (c : Char) : Int := (c.toNat : Int) - 48

/-- The military single-letter timezone table of `atogmtoff` (hours east of
UTC); `none` is the `default:` branch returning LONG_MIN. -/
def military_hours (c : Char) : Option Int :=
  if c = 'A' then some (-1)
  else if c = 'B' then some (-2)
  else if c = 'C' then some (-3)
  else if c = 'D' then some (-4)
  else if c = 'E' then some (-5)
  else if c = 'F' then some (-6)
  else if c = 'G' then some (-7)
  else if c = 'H' then some (-8)
  else if c = 'I' then some (-9)
  else if c = 'K' then some (-10)
  else if c = 'L' then some (-11)
  else if c = 'M' then some (-12)
  else if c = 'N' then some 1
  else if c = 'O' then some 2
  else if c = 'P' then some 3
  else if c = 'Q' then some 4
  else if c = 'R' then some 5
  else if c = 'S' then some 6
  else if c = 'T' then some 7
  else if c = 'U' then some 8
  else if c = 'V' then some 9
  else if c = 'W' then some 10
  else if c = 'X' then some 11
  else if c = 'Y' then some 12
  else if c = 'Z' then some 0
  else none

/-- The named-timezone dispatch of `atogmtoff` for tokens of length >= 2
(hours east of UTC), which looks only at the first character and, for
E/C/M/P, the second; `none` is the `default:` branch. -/
def name_hours (c0 c1 : Char) : Option Int :=
  if c0 = 'U' ∨ c0 = 'G' then some 0
  else if c0 = 'E' then some (if c1 = 'S' then -5 else -4)
  else if c0 = 'C' then some (if c1 = 'S' then -6 else -5)
  else if c0 = 'M' then some (if c1 = 'S' then -7 else -6)
  else if c0 = 'P' then some (if c1 = 'S' then -8 else -7)
  else none

/-- `atogmtoff` from the C source: convert a timezone token to seconds east
of UTC, dispatching on the token length; LONG_MIN on error.  The length 5
and length 6 branches do raw `c - '0'` arithmetic without validating that
the characters are digits, exactly as the C does. -/
def atogmtoff (buffer : List Char) : Int :=
  if buffer.length = 5 then
    let r := ((dig (buffer.getD 1 ' ')) * 10 + dig (buffer.getD 2 ' ')) * 60 * 60 +
             ((dig (buffer.getD 3 ' ')) * 10 + dig (buffer.getD 4 ' ')) * 60
    if buffer.getD 0 ' ' = '-' then -r else r
  else if buffer.length = 6 then
    let r := ((dig (buffer.getD 1 ' ')) * 10 + dig (buffer.getD 2 ' ')) * 60 * 60 +
             ((dig (buffer.getD 4 ' ')) * 10 + dig (buffer.getD 5 ' ')) * 60
    if buffer.getD 0 ' ' = '-' then -r else r
  else if buffer.length = 1 then
    match military_hours (buffer.getD 0 ' ') with
    | none => TG_LONG_MIN
    | some v => v * 60 * 60
  else if 2 ≤ buffer.length then
    match name_hours (buffer.getD 0 ' ') (buffer.getD 1 ' ') with
    | none => TG_LONG_MIN
    | some v => v * 60 * 60
  else TG_LONG_MIN

/-- strtol(buffer, NULL, 10) on a capture: fold the leading run of decimal
digits (captures produced by the compiled regexes are pure digit strings,
so the sign/whitespace handling of strtol is never exercised). -/
def str2int_go : List Char → Int → Int
  | [], acc => acc
  | c :: rest, acc =>
    if c.isDigit then str2int_go rest (acc * 10 + ((c.toNat : Int) - 48)) else acc

/-- Integer value of the leading digit run of a string. -/
def str2int (l : List Char) : Int := str2int_go l 0

/-- `tg_atoi` from the C source: strtol, then TG_ERROR (-1) when the value is
negative or >= INT_MAX. -/
def tg_atoi (b : List Char) : Int :=
  let r := str2int b
  if r < 0 ∨ 2147483647 ≤ r then -1 else r

/-- strtoll applied to a digit capture; it clamps at LLONG_MAX on overflow. -/
def tg_strtoll (b : List Char) : Int :=
  min (str2int b) 9223372036854775807

/-- `tg_atom` from the C source: month name to 0-based month number,
dispatching on the first (and second/third) characters; TG_ERROR (-1) when
the buffer is shorter than 3 bytes or starts with an unknown letter. -/
def tg_atom (buffer : List Char) (length : Int) : Int :=
  if length < 3 then -1
  else
    let c0 := buffer.getD 0 ' '
    if c0 = 'A' then (if buffer.getD 1 ' ' = 'p' then 3 else 7)
    else if c0 = 'D' then 11
    else if c0 = 'F' then 1
    else if c0 = 'J' then
      (if buffer.getD 1 ' ' = 'a' then 0
       else if buffer.getD 2 ' ' = 'n' then 5 else 6)
    else if c0 = 'M' then (if buffer.getD 2 ' ' = 'r' then 2 else 4)
    else if c0 = 'N' then 10
    else if c0 = 'O' then 9
    else if c0 = 'S' then 8
    else -1

/-- The `pcre_extra_opt` struct of the C source.  During format compilation
the `has_*` fields are occurrence counts; after `pcre_get_stringnumber` they
hold the capture-group index of the kind, or PCRE_ERROR_NOSUBSTRING (-7)
when the compiled regex has no group of that name. -/
structure ExtraOpt where
  has_year : Int
  has_month : Int
  has_month_t : Int
  has_day : Int
  has_hour : Int
  has_minute : Int
  has_second : Int
  has_timezone : Int
  has_timestamp : Int
  fallback : Bool
deriving DecidableEq

/-- The zeroed `pcre_extra_opt` (memset before each compiler pass). -/
def opt0 : ExtraOpt := ⟨0, 0, 0, 0, 0, 0, 0, 0, 0, false⟩

/-- The fields of `struct tm` that timegrep populates (year stored as
year - 1900, month 0-based, exactly as in the source). -/
structure Tm where
  tm_year : Int
  tm_mon : Int
  tm_mday : Int
  tm_hour : Int
  tm_min : Int
  tm_sec : Int
  tm_gmtoff : Int
deriving DecidableEq

/-- The zeroed `struct tm` (memset at the top of `tg_strptime_re`). -/
def tm0 : Tm := ⟨0, 0, 0, 0, 0, 0, 0⟩

/-- Days from 1970-01-01 of the civil date y-m-d (proleptic Gregorian,
m is 1-based), the standard era/year-of-era computation. -/
def days_from_civil (y m d : Int) : Int :=
  let y2 := if m ≤ 2 then y - 1 else y
  let era := y2.fdiv 400
  let yoe := y2 - era * 400
  let mp := (m + 9) % 12
  let doy := (153 * mp + 2).fdiv 5 + d - 1
  let doe := yoe * 365 + yoe.fdiv 4 - yoe.fdiv 100 + doy
  era * 146097 + doe - 719468

/-- The platform `timegm` at its boundary: broken-down time interpreted as
UTC, converted to an epoch second (for in-range field values, which is all
timegrep ever produces on the paths modelled here). -/
def timegm_model (tm : Tm) : Int :=
  days_from_civil (tm.tm_year + 1900) (tm.tm_mon + 1) tm.tm_mday * 86400 +
    tm.tm_hour * 3600 + tm.tm_min * 60 + tm.tm_sec

/-- Result of `tg_strptime_re`: TG_FOUND with a timestamp, TG_NOT_FOUND, or
TG_ERROR (which makes the caller fall back). -/
inductive ReRes
  | found (ts : Int)
  | notFound
  | error
deriving DecidableEq

/-- One `pcre_copy_substring` guard of `tg_strptime_re`: when the group
index is >= 0, copy the capture (error result aborts) and update the
broken-down time; otherwise leave it unchanged. -/
def capStep (copy : Int → Option (List Char)) (idx : Int)
    (f : List Char → Tm → Tm) (tm : Tm) : Option Tm :=
  if 0 ≤ idx then
    match copy idx with
    | none => none
    | some b => some (f b tm)
  else some tm

/-- The capture-assembly sequence of `tg_strptime_re` (year, month, month_t,
day, hour, minute, second, timezone, in source order); `copy` abstracts
`pcre_copy_substring` on the current match (`none` = negative return). -/
def assemble_tm (copy : Int → Option (List Char)) (opt : ExtraOpt) : Option Tm :=
  (capStep copy opt.has_year (fun b tm => { tm with tm_year := tg_atoi b - 1900 }) tm0).bind fun tm =>
  (capStep copy opt.has_month (fun b tm => { tm with tm_mon := tg_atoi b - 1 }) tm).bind fun tm =>
  (capStep copy opt.has_month_t (fun b tm => { tm with tm_mon := tg_atom b (b.length : Int) }) tm).bind fun tm =>
  (capStep copy opt.has_day (fun b tm => { tm with tm_mday := tg_atoi b }) tm).bind fun tm =>
  (capStep copy opt.has_hour (fun b tm => { tm with tm_hour := tg_atoi b }) tm).bind fun tm =>
  (capStep copy opt.has_minute (fun b tm => { tm with tm_min := tg_atoi b }) tm).bind fun tm =>
  (capStep copy opt.has_second (fun b tm => { tm with tm_sec := tg_atoi b }) tm).bind fun tm =>
  capStep copy opt.has_timezone (fun b tm => { tm with tm_gmtoff := atogmtoff b }) tm

/-- `tg_strptime_re` from the C source (the non-fallback extraction path):
assemble the broken-down time from the named captures, return the decoded
`timestamp` capture directly when present, otherwise subtract the offset
selected by the `has_timezone == 0` test (TG_TIMEZONE only in that case,
else `tm.tm_gmtoff`) from the UTC interpretation.  `tz_local` is the
process-wide TG_TIMEZONE. -/
def tg_strptime_re (copy : Int → Option (List Char)) (opt : ExtraOpt)
    (tz_local : Int) : ReRes :=
  match assemble_tm copy opt with
  | none => ReRes.error
  | some tm =>
    if 0 ≤ opt.has_timestamp then
      match copy opt.has_timestamp with
      | none => ReRes.error
      | some b => ReRes.found (tg_strtoll b)
    else
      let tm_gmtoff := if opt.has_timezone = 0 then tz_local else tm.tm_gmtoff
      let ts := timegm_model tm - tm_gmtoff
      if ts = -1 then ReRes.notFound else ReRes.found ts

/-- The regex metacharacters escaped by `strptime_regex` outside of
directives. -/
def escChar (c : Char) : Bool := ("^$|()[]\x7b\x7d.*+?\\".data).contains c

/-- Action of one `%X` directive in the `switch` of `strptime_regex`:
reject, emit a literal regex fragment (with a metadata update), or recurse
into an equivalent sub-format. -/
inductive SrAct
  | bad
  | lit (part : List Char) (upd : ExtraOpt → ExtraOpt)
  | sub (subfmt : List Char)

/-- Per-kind count increments and the fallback setter used by the
directive table. -/
def set_fb (o : ExtraOpt) : ExtraOpt := { o with fallback := true }

/-- Increment of the month_t count. -/
def inc_month_t (o : ExtraOpt) : ExtraOpt := { o with has_month_t := o.has_month_t + 1 }

/-- Increment of the day count. -/
def inc_day (o : ExtraOpt) : ExtraOpt := { o with has_day := o.has_day + 1 }

/-- Increment of the hour count. -/
def inc_hour (o : ExtraOpt) : ExtraOpt := { o with has_hour := o.has_hour + 1 }

/-- Increment of the month count. -/
def inc_month (o : ExtraOpt) : ExtraOpt := { o with has_month := o.has_month + 1 }

/-- Increment of the minute count. -/
def inc_minute (o : ExtraOpt) : ExtraOpt := { o with has_minute := o.has_minute + 1 }

/-- Increment of the second count. -/
def inc_second (o : ExtraOpt) : ExtraOpt := { o with has_second := o.has_second + 1 }

/-- Increment of the year count. -/
def inc_year (o : ExtraOpt) : ExtraOpt := { o with has_year := o.has_year + 1 }

/-- Increment of the timezone count. -/
def inc_timezone (o : ExtraOpt) : ExtraOpt := { o with has_timezone := o.has_timezone + 1 }

/-- Increment of the timestamp count. -/
def inc_timestamp (o : ExtraOpt) : ExtraOpt := { o with has_timestamp := o.has_timestamp + 1 }

/-- The full directive table of `strptime_regex` (the big `switch`), with
the exact regex fragments of the C source. -/
def sr_directive : Char → SrAct
  | '%' => SrAct.lit "%".data id
  | 'a' => SrAct.lit "(Mon|Monday|Tue|Tuesday|Wed|Wednesday|Thu|Thursday|Fri|Friday|Sat|Saturday|Sun|Sunday)".data set_fb
  | 'A' => SrAct.lit "(Mon|Monday|Tue|Tuesday|Wed|Wednesday|Thu|Thursday|Fri|Friday|Sat|Saturday|Sun|Sunday)".data set_fb
  | 'b' => SrAct.lit "(?P<month_t>Jan|January|Feb|February|Mar|March|Apr|April|May|Jun|June|Jul|July|Aug|August|Sep|September|Oct|October|Nov|November|Dec|December)".data inc_month_t
  | 'B' => SrAct.lit "(?P<month_t>Jan|January|Feb|February|Mar|March|Apr|April|May|Jun|June|Jul|July|Aug|August|Sep|September|Oct|October|Nov|November|Dec|December)".data inc_month_t
  | 'h' => SrAct.lit "(?P<month_t>Jan|January|Feb|February|Mar|March|Apr|April|May|Jun|June|Jul|July|Aug|August|Sep|September|Oct|October|Nov|November|Dec|December)".data inc_month_t
  | 'c' => SrAct.sub "%x %X".data
  | 'C' => SrAct.lit "\\d\x7b1,2\x7d".data set_fb
  | 'd' => SrAct.lit "(?P<day>[1-2][0-9]|3[0-1]|0?[1-9])".data inc_day
  | 'e' => SrAct.lit "(?P<day>[1-2][0-9]|3[0-1]|0?[1-9])".data inc_day
  | 'D' => SrAct.sub "%m/%d/%y".data
  | 'H' => SrAct.lit "(?P<hour>1[0-9]|2[0-3]|0?[0-9])".data inc_hour
  | 'I' => SrAct.lit "(1[0-2]|0?[1-9])".data set_fb
  | 'j' => SrAct.lit "([1-2][0-9][0-9]|3[0-5][0-9]|36[0-6]|0?[1-9][0-9]|0\x7b0,2\x7d[1-9])".data set_fb
  | 'm' => SrAct.lit "(?P<month>1[0-2]|0?[1-9])".data inc_month
  | 'M' => SrAct.lit "(?P<minute>[1-5][0-9]|0?[0-9])".data inc_minute
  | 'n' => SrAct.lit "\\s".data id
  | 't' => SrAct.lit "\\s".data id
  | 'p' => SrAct.lit "(AM|PM)".data set_fb
  | 'r' => SrAct.sub "%I:%M:%S %p".data
  | 'R' => SrAct.sub "%H:%M".data
  | 'S' => SrAct.lit "(?P<second>[1-5][0-9]|60|0?[0-9])".data inc_second
  | 'T' => SrAct.sub "%H:%M:%S".data
  | 'U' => SrAct.lit "([1-4][0-9]|5[0-3]|0?[0-9])".data set_fb
  | 'W' => SrAct.lit "([1-4][0-9]|5[0-3]|0?[0-9])".data set_fb
  | 'w' => SrAct.lit "[0-6]".data set_fb
  | 'x' => SrAct.sub "%Y-%m-%d".data
  | 'X' => SrAct.sub "%H:%M:%S".data
  | 'y' => SrAct.lit "\\d\x7b1,2\x7d".data set_fb
  | 'Y' => SrAct.lit "(?P<year>\\d\x7b4\x7d)".data inc_year
  | 'O' => SrAct.bad
  | 'E' => SrAct.bad
  | 'F' => SrAct.sub "%Y-%m-%d".data
  | 'g' => SrAct.lit "\\d\x7b1,2\x7d".data set_fb
  | 'G' => SrAct.lit "\\d\x7b4\x7d".data set_fb
  | 'u' => SrAct.lit "[1-7]".data set_fb
  | 'V' => SrAct.lit "([1-4][0-9]|5[0-3]|0?[1-9])".data set_fb
  | 'z' => SrAct.lit "(?P<timezone>((\\+|\\-)\\d\x7b2\x7d:?\\d\x7b2\x7d)|UT|UTC|GMT|EST|EDT|CST|CDT|MST|MDT|PST|PDT|[A-Z])".data inc_timezone
  | 'Z' => SrAct.lit "[A-Za-z0-9_\\+\\-/]\x7b3,33\x7d".data (fun o => inc_timezone (set_fb o))
  | 's' => SrAct.lit "(?P<timestamp>\\d\x7b1,20\x7d)".data inc_timestamp
  | _ => SrAct.bad

/-- The post-scan fallback check at the end of `strptime_regex`: force
fallback when any count exceeds 1, when both month and month_t occur, or
when timestamp occurs and the other date/time counts sum to more than 1. -/
def sr_check (o : ExtraOpt) : ExtraOpt :=
  if 1 < o.has_year ∨ 1 < o.has_month ∨ 1 < o.has_month_t ∨ 1 < o.has_day ∨
     1 < o.has_hour ∨ 1 < o.has_minute ∨ 1 < o.has_second ∨ 1 < o.has_timezone ∨
     1 < o.has_timestamp ∨ 1 < o.has_month + o.has_month_t ∨
     (0 < o.has_timestamp ∧
      1 < o.has_year + o.has_month + o.has_month_t + o.has_day + o.has_hour +
          o.has_minute + o.has_second)
  then { o with fallback := true } else o

/-- The scan loop of `strptime_regex` over the format string.  It returns
the value of `regex_index` (the length accounting, identical in both
passes), the bytes written (empty when `emit` is false, i.e. when the C is
called with `regex == NULL`), and the updated metadata.  `onC` performs the
recursive call for compound directives; the C source recurses into
`strptime_regex` itself, and since the compound expansions are fixed
strings of nesting depth at most 2, instantiating `onC` three levels deep
reproduces the recursion exactly. -/
def sr_scan (onC : Bool → List Char → ExtraOpt → Option (Nat × List Char × ExtraOpt)) :
    Bool → List Char → ExtraOpt → Option (Nat × List Char × ExtraOpt)
  | _, [], opt => some (0, [], opt)
  | emit, c :: rest, opt =>
    if c = '%' then
      match rest with
      | [] => none
      | d :: rest2 =>
        match sr_directive d with
        | SrAct.bad => none
        | SrAct.lit part upd =>
          match sr_scan onC emit rest2 (upd opt) with
          | none => none
          | some (n, b, o) => some (part.length + n, (if emit then part else []) ++ b, o)
        | SrAct.sub subfmt =>
          match onC emit subfmt opt with
          | none => none
          | some (n1, b1, o1) =>
            match sr_scan onC emit rest2 o1 with
            | none => none
            | some (n2, b2, o2) => some (n1 + n2, b1 ++ b2, o2)
    else
      let bytes := if escChar c then ['\\', c] else [c]
      match sr_scan onC emit rest opt with
      | none => none
      | some (n, b, o) => some (bytes.length + n, (if emit then bytes else []) ++ b, o)

/-- One full call of `strptime_regex` given a compound handler: scan, then
apply the post-scan fallback check (the check runs once per C call, at the
end, including in recursive calls). -/
def sr_wrap (f : Bool → List Char → ExtraOpt → Option (Nat × List Char × ExtraOpt)) :
    Bool → List Char → ExtraOpt → Option (Nat × List Char × ExtraOpt) :=
  fun emit fmt opt =>
    match sr_scan f emit fmt opt with
    | none => none
    | some (n, b, o) => some (n, b, sr_check o)

/-- Depth-0 compiler call: compound directives are impossible at this depth
because the compound expansions contain none. -/
def sr0 : Bool → List Char → ExtraOpt → Option (Nat × List Char × ExtraOpt) :=
  sr_wrap (fun _ _ _ => none)

/-- Depth-1 compiler call. -/
def sr1 : Bool → List Char → ExtraOpt → Option (Nat × List Char × ExtraOpt) :=
  sr_wrap sr0

/-- Depth-2 compiler call. -/
def sr2 : Bool → List Char → ExtraOpt → Option (Nat × List Char × ExtraOpt) :=
  sr_wrap sr1

/-- `strptime_regex` as invoked by `parse_options`, starting from a zeroed
metadata record.  `emit = false` is the length pass (`regex == NULL`),
`emit = true` the emission pass.  `none` is the TG_ERROR return. -/
def strptime_regex (emit : Bool) (fmt : List Char) :
    Option (Nat × List Char × ExtraOpt) :=
  sr_wrap sr2 emit fmt opt0

/-- Result of `get_string`: the bounds of the line containing a position,
TG_NOT_FOUND when the position holds a newline, or TG_NULL when the whole
buffer is a single line without delimiter. -/
inductive GsRes
  | found (start len : Nat)
  | notFound
  | null
deriving DecidableEq

/-- Start of the line containing `position`: one past the last newline
strictly before it (memrchr), or 0. -/
def gs_start (data : List Char) (position : Nat) : Nat :=
  match lastNlIdx (data.take position) with
  | none => 0
  | some i => i + 1

/-- Exclusive end of the line containing `position`: the first newline at
or after it (memchr), or the buffer size. -/
def gs_stop (data : List Char) (position : Nat) : Nat :=
  match firstNlIdx (data.drop position) with
  | none => data.length
  | some j => position + j

/-- `get_string` from the C source: string boundaries in multiline data
around `position` (memrchr before, memchr at-or-after); TG_NULL when the
computed length equals the whole buffer size. -/
def get_string (data : List Char) (position : Nat) : GsRes :=
  if data[position]? = some '\n' then GsRes.notFound
  else if gs_stop data position - gs_start data position = data.length then GsRes.null
  else GsRes.found (gs_start data position) (gs_stop data position - gs_start data position)

/-- Result of `forward_search`. -/
inductive FsOut
  | found (start len : Nat) (ts : Int)
  | notFound
  | null
  | error
deriving DecidableEq

/-- The loop of `forward_search`, with an explicit iteration budget.
Each iteration advances `position` by at least one, and the loop runs only
while `position < ubound`, so a budget of `ubound - position` makes the
budget-exhausted case coincide with the C loop exit (`position >= ubound`,
result TG_NOT_FOUND).  On an unparseable line the C sets
`position = start + length + 1` and the trailing `position++` of the loop
adds one more, hence the jump to `s + l + 2`. -/
def fs_run (data : List Char) (parse : List Char → PRes) :
    Nat → Nat → Nat → FsOut
  | 0, _, _ => FsOut.notFound
  | fuel + 1, position, ubound =>
    if position < ubound then
      match get_string data position with
      | GsRes.found s l =>
        match parse (tg_slice data s l) with
        | PRes.found ts => FsOut.found s l ts
        | PRes.notFound => fs_run data parse fuel (s + l + 2) ubound
        | PRes.error => FsOut.error
      | GsRes.notFound => fs_run data parse fuel (position + 1) ubound
      | GsRes.null => FsOut.null
    else FsOut.notFound

/-- `forward_search` from the C source: first line with a parseable
timestamp, scanning from `position` up to `ubound`. -/
def forward_search (data : List Char) (position ubound : Nat)
    (parse : List Char → PRes) : FsOut :=
  fs_run data parse (ubound - position) position ubound

/-- The loop state of `binary_search`: the three cursors and the `result`
variable holding the last probe outcome (initially TG_NULL). -/
structure BsState where
  lbound : Nat
  middle : Nat
  ubound : Nat
  result : TgRes
deriving DecidableEq

/-- Final outcome of `binary_search`: TG_FOUND carries the result position
(the final `lbound`). -/
inductive BsOut
  | found (pos : Nat)
  | notFound
  | null
  | error
deriving DecidableEq

/-- Outcome of one `binary_search` loop iteration: a new state, or a break
out of the loop (TG_NULL / TG_ERROR probe). -/
inductive BsStepOut
  | next (st : BsState)
  | stop (r : BsOut)
deriving DecidableEq

/-- One iteration of the `binary_search` loop body, including the final
`middle = lbound + (middle - lbound) / 2` recomputation. -/
def bs_step (data : List Char) (parse : List Char → PRes) (search : Int)
    (st : BsState) : BsStepOut :=
  match forward_search data st.middle st.ubound parse with
  | FsOut.found s l ts =>
    if ts < search then
      let lb1 := s + l
      let lb2 := if lb1 ≠ st.ubound then lb1 + 1 else lb1
      BsStepOut.next
        { lbound := lb2, middle := lb2 + (st.ubound - lb2) / 2,
          ubound := st.ubound, result := TgRes.found }
    else
      BsStepOut.next
        { lbound := st.lbound, middle := st.lbound + (s - st.lbound) / 2,
          ubound := s, result := TgRes.found }
  | FsOut.notFound =>
    BsStepOut.next
      { lbound := st.lbound, middle := st.lbound + (st.middle - st.lbound) / 2,
        ubound := st.middle, result := TgRes.notFound }
  | FsOut.null => BsStepOut.stop BsOut.null
  | FsOut.error => BsStepOut.stop BsOut.error

/-- The `while (lbound != middle)` loop of `binary_search`, with an explicit
iteration budget; `none` means the budget ran out (the termination theorem
shows this never happens for the budget `binary_search` supplies). -/
def bs_run (data : List Char) (parse : List Char → PRes) (search : Int) :
    Nat → BsState → Option BsOut
  | 0, _ => none
  | fuel + 1, st =>
    if st.lbound = st.middle then
      some (match st.result with
            | TgRes.found => BsOut.found st.lbound
            | TgRes.notFound => BsOut.notFound
            | TgRes.null => BsOut.null
            | TgRes.error => BsOut.error)
    else
      match bs_step data parse search st with
      | BsStepOut.next st2 => bs_run data parse search fuel st2
      | BsStepOut.stop r => some r

/-- `binary_search` from the C source: earliest line position whose
timestamp is at least `search`, within `[lbound, size)`.  The loop interval
`ubound - lbound` shrinks strictly on every iteration (claim C5), so
`size + 1` iterations always suffice. -/
def binary_search (data : List Char) (lbound : Nat) (search : Int)
    (parse : List Char → PRes) : Option BsOut :=
  bs_run data parse search (data.length + 1)
    { lbound := lbound, middle := lbound + (data.length - lbound) / 2,
      ubound := data.length, result := TgRes.null }

/-- `file_timegrep` from the C source, returning the TG result code and the
bytes written to standard output.  The chunked write loop emits exactly
`data[lbound .. ubound)` (partial writes only split the range), and a final
newline is appended whenever `ubound == size`.  The `none` budget case of
`bs_run` is mapped to TG_ERROR; the termination theorem shows it is
unreachable. -/
def file_timegrep (data : List Char) (start stop : Int)
    (parse : List Char → PRes) : TgRes × List Char :=
  match binary_search data 0 start parse with
  | some (BsOut.found lb) =>
    match binary_search data lb stop parse with
    | some (BsOut.found ub) =>
      let out := tg_slice data lb (ub - lb)
      (TgRes.found, if ub = data.length then out ++ ['\n'] else out)
    | some BsOut.notFound => (TgRes.notFound, [])
    | some BsOut.null => (TgRes.null, [])
    | some BsOut.error => (TgRes.error, [])
    | none => (TgRes.error, [])
  | some BsOut.notFound => (TgRes.notFound, [])
  | some BsOut.null => (TgRes.null, [])
  | some BsOut.error => (TgRes.error, [])
  | none => (TgRes.error, [])

/-- The loop of `stream_timegrep` over the unconsumed bytes.  One iteration
of the C loop consumes one completed line: `read_stream_string` returns the
next line length when a newline exists among the unread input (reading
chunks as needed), and TG_NOT_FOUND at end of file, which breaks the loop
and drops any unterminated trailing bytes.  The buffer growth and the
compaction memmove only move bytes around and are invisible in the
consumed/emitted byte sequence.  Each iteration consumes at least one byte,
so a budget of `length + 1` always suffices; the 0 case is unreachable. -/
def st_run (parse : List Char → PRes) (start stop : Int) :
    Nat → List Char → Bool → TgRes × List Char
  | 0, _, _ => (TgRes.error, [])
  | fuel + 1, rest, stream =>
    match firstNlIdx rest with
    | none => ((if stream then TgRes.found else TgRes.notFound), [])
    | some i =>
      match parse (rest.take i) with
      | PRes.error => (TgRes.error, [])
      | PRes.found ts =>
        if stop ≤ ts then ((if stream then TgRes.found else TgRes.notFound), [])
        else
          let stream2 := stream || decide (start ≤ ts)
          let next := st_run parse start stop fuel (rest.drop (i + 1)) stream2
          if stream2 then (next.1, rest.take (i + 1) ++ next.2) else next
      | PRes.notFound =>
        let next := st_run parse start stop fuel (rest.drop (i + 1)) stream
        if stream then (next.1, rest.take (i + 1) ++ next.2) else next

/-- `stream_timegrep` from the C source: sequential scan of a non-seekable
input, entering streaming state at the first line with timestamp at least
`start` and stopping at the first parsed timestamp at least `stop`. -/
def stream_timegrep (data : List Char) (start stop : Int)
    (parse : List Char → PRes) : TgRes × List Char :=
  st_run parse start stop (data.length + 1) data false

/-- The memory-mapping boundary of `main`: POSIX `mmap` fails with EINVAL
when the requested length is zero, so mapping a zero-length file fails. -/
def tg_mmap (contents : List Char) : Option (List Char) :=
  if contents.length = 0 then none else some contents

/-- The per-file loop of `main`: open/map each file, run `file_timegrep`,
abort with exit code 2 on TG_ERROR or on a failed map, and after the loop
turn the last result into exit code 0 (TG_FOUND) or 1.  Returns the exit
code and the accumulated standard output. -/
def process_files (parse : List Char → PRes) (start stop : Int) :
    List (List Char) → TgRes → Nat × List Char
  | [], last => ((if last = TgRes.found then 0 else 1), [])
  | f :: rest, _ =>
    match tg_mmap f with
    | none => (2, [])
    | some data =>
      let r := file_timegrep data start stop parse
      if r.1 = TgRes.error then (2, r.2)
      else
        let next := process_files parse start stop rest r.1
        (next.1, r.2 ++ next.2)

/-- Accumulator splitter for `tg_lines`. -/
def lines_go : List Char → List Char → List (List Char)
  | [], acc => if acc.isEmpty then [] else [acc.reverse]
  | c :: r, acc => if c = '\n' then acc.reverse :: lines_go r [] else lines_go r (c :: acc)

/-- The lines of a buffer per the spec glossary: maximal byte runs between
newlines, the trailing newline not being part of the line, and no phantom
empty line after a final newline. -/
def tg_lines (data : List Char) : List (List Char) := lines_go data []

/-- The output prescribed by the window-correctness law of the spec
(section 8, law 1): the concatenation, in input order, of exactly the lines
whose timestamp lies in `[s, t)`, each with its terminating newline (the
trailing newline of the very last line being supplied when absent in the
source).  This definition follows the wording of the spec and is the
comparison target for the emitters. -/
def spec_window_output (data : List Char) (s t : Int)
    (tsOf : List Char → Option Int) : List Char :=
  ((tg_lines data).filter (fun l =>
      match tsOf l with
      | some v => decide (s ≤ v) && decide (v < t)
      | none => false)).foldr (fun l acc => l ++ '\n' :: acc) []

/-! ## Lemmas about the newline searches and `get_string` -/

theorem lastNlIdx_lt_length : ∀ (L : List Char) (i : Nat),
    lastNlIdx L = some i → i < L.length := by
  intro L
  induction L with
  | nil => intro i h; simp [lastNlIdx] at h
  | cons c rest ih =>
    intro i h
    simp only [lastNlIdx] at h
    cases hr : lastNlIdx rest with
    | some j =>
      rw [hr] at h
      cases h
      have := ih j hr
      simp only [List.length_cons]
      omega
    | none =>
      rw [hr] at h
      simp only [List.length_cons]
      by_cases hc : c = '\n'
      · simp [hc] at h; omega
      · simp [hc] at h

theorem firstNlIdx_lt_length : ∀ (L : List Char) (i : Nat),
    firstNlIdx L = some i → i < L.length := by
  intro L
  induction L with
  | nil => intro i h; simp [firstNlIdx] at h
  | cons c rest ih =>
    intro i h
    simp only [firstNlIdx] at h
    by_cases hc : c = '\n'
    · simp [hc] at h
      simp only [List.length_cons]
      omega
    · simp [hc] at h
      obtain ⟨j, hj, rfl⟩ := h
      have := ih j hj
      simp only [List.length_cons]
      omega

theorem firstNlIdx_none_of_no_nl : ∀ (L : List Char),
    (∀ c ∈ L, c ≠ '\n') → firstNlIdx L = none := by
  intro L
  induction L with
  | nil => intro _; rfl
  | cons c rest ih =>
    intro h
    have hc : c ≠ '\n' := h c (List.mem_cons_self c rest)
    have hr := ih (fun x hx => h x (List.mem_cons_of_mem c hx))
    simp [firstNlIdx, hc, hr]

theorem lastNlIdx_none_of_no_nl : ∀ (L : List Char),
    (∀ c ∈ L, c ≠ '\n') → lastNlIdx L = none := by
  intro L
  induction L with
  | nil => intro _; rfl
  | cons c rest ih =>
    intro h
    have hc : c ≠ '\n' := h c (List.mem_cons_self c rest)
    have hr := ih (fun x hx => h x (List.mem_cons_of_mem c hx))
    simp [lastNlIdx, hc, hr]

theorem firstNlIdx_append_some : ∀ (a b : List Char) (i : Nat),
    firstNlIdx a = some i → firstNlIdx (a ++ b) = some i := by
  intro a
  induction a with
  | nil => intro b i h; simp [firstNlIdx] at h
  | cons c rest ih =>
    intro b i h
    simp only [firstNlIdx] at h ⊢
    by_cases hc : c = '\n'
    · simp [hc] at h ⊢; omega
    · simp [hc] at h ⊢
      obtain ⟨j, hj, rfl⟩ := h
      exact ⟨j, ih b j hj, rfl⟩

theorem firstNlIdx_append_none : ∀ (a b : List Char),
    firstNlIdx a = none → firstNlIdx b = none → firstNlIdx (a ++ b) = none := by
  intro a
  induction a with
  | nil => intro b _ hb; simpa using hb
  | cons c rest ih =>
    intro b ha hb
    simp only [firstNlIdx] at ha ⊢
    by_cases hc : c = '\n'
    · simp [hc] at ha
    · simp [hc] at ha ⊢
      exact ih b ha hb

theorem gs_start_le (data : List Char) (pos : Nat) : gs_start data pos ≤ pos := by
  unfold gs_start
  cases hlast : lastNlIdx (data.take pos) with
  | none => exact Nat.zero_le pos
  | some i =>
    have hi := lastNlIdx_lt_length _ _ hlast
    have hlen : (data.take pos).length ≤ pos := by simp [List.length_take]
    show i + 1 ≤ pos
    omega

theorem gs_stop_ge (data : List Char) (pos : Nat) (hpos : pos ≤ data.length) :
    pos ≤ gs_stop data pos := by
  unfold gs_stop
  cases hfirst : firstNlIdx (data.drop pos) with
  | none => exact hpos
  | some j => exact Nat.le_add_right pos j

theorem get_string_found_eq {data : List Char} {pos s l : Nat}
    (h : get_string data pos = GsRes.found s l) :
    s = gs_start data pos ∧ l = gs_stop data pos - gs_start data pos := by
  unfold get_string at h
  split at h
  · exact absurd h (by simp)
  · split at h
    · exact absurd h (by simp)
    · cases h; exact ⟨rfl, rfl⟩

theorem get_string_found_start_le {data : List Char} {pos s l : Nat}
    (h : get_string data pos = GsRes.found s l) : s ≤ pos := by
  obtain ⟨rfl, rfl⟩ := get_string_found_eq h
  exact gs_start_le data pos

theorem get_string_found_pos_le {data : List Char} {pos s l : Nat}
    (hpos : pos ≤ data.length)
    (h : get_string data pos = GsRes.found s l) : pos ≤ s + l := by
  obtain ⟨rfl, rfl⟩ := get_string_found_eq h
  have h1 := gs_start_le data pos
  have h2 := gs_stop_ge data pos hpos
  omega

/-! ## Lemmas about `forward_search` -/

theorem fs_run_found_bounds {data : List Char} {parse : List Char → PRes}
    {ub : Nat} (hub : ub ≤ data.length) :
    ∀ (fuel pos s l : Nat) (ts : Int),
      fs_run data parse fuel pos ub = FsOut.found s l ts →
      pos < ub ∧ s < ub ∧ pos ≤ s + l := by
  intro fuel
  induction fuel with
  | zero => intro pos s l ts h; simp [fs_run] at h
  | succ fuel ih =>
    intro pos s l ts h
    simp only [fs_run] at h
    split at h
    next hlt =>
      split at h
      next s0 l0 hgs =>
        split at h
        next ts0 hp =>
          cases h
          have h1 := get_string_found_start_le hgs
          have h2 := get_string_found_pos_le (by omega) hgs
          exact ⟨hlt, by omega, h2⟩
        next hp =>
          have h2 := get_string_found_pos_le (by omega) hgs
          have h3 := ih _ _ _ _ h
          exact ⟨hlt, h3.2.1, by omega⟩
        next hp => exact absurd h (by simp)
      next hgs =>
        have h3 := ih _ _ _ _ h
        exact ⟨hlt, h3.2.1, by omega⟩
      next hgs => exact absurd h (by simp)
    next hlt => exact absurd h (by simp)

theorem forward_search_found_bounds {data : List Char} {parse : List Char → PRes}
    {pos ub s l : Nat} {ts : Int} (hub : ub ≤ data.length)
    (h : forward_search data pos ub parse = FsOut.found s l ts) :
    pos < ub ∧ s < ub ∧ pos ≤ s + l :=
  fs_run_found_bounds hub (ub - pos) pos s l ts h

/-! ## Lemmas about `binary_search` -/

/-- Loop invariant of `binary_search`: `middle` never falls below `lbound`
(it is always recomputed as `lbound + k`), `ubound` stays within the
buffer, and whenever the loop is about to continue (`middle ≠ lbound`) the
midpoint lies strictly below `ubound`.  Together these rule out every
`size_t` underflow in the C loop. -/
def BsInv (data : List Char) (st : BsState) : Prop :=
  st.lbound ≤ st.middle ∧ st.ubound ≤ data.length ∧
    (st.middle = st.lbound ∨ st.middle < st.ubound)

instance (data : List Char) (st : BsState) : Decidable (BsInv data st) := by
  unfold BsInv; infer_instance

theorem bs_step_next_facts {data : List Char} {parse : List Char → PRes}
    {search : Int} {st st' : BsState}
    (hinv : BsInv data st) (hne : st.lbound ≠ st.middle)
    (hstep : bs_step data parse search st = BsStepOut.next st') :
    BsInv data st' ∧ st'.ubound - st'.lbound < st.ubound - st.lbound := by
  obtain ⟨h1, h2, h3⟩ := hinv
  have hmidub : st.middle < st.ubound := by
    rcases h3 with h3 | h3
    · exact absurd h3.symm hne
    · exact h3
  unfold bs_step at hstep
  split at hstep
  next s l ts hfs =>
    have hb := forward_search_found_bounds h2 hfs
    split at hstep
    next hts =>
      cases hstep
      unfold BsInv
      dsimp only
      have hlb2 : s + l ≤ (if s + l ≠ st.ubound then s + l + 1 else s + l) := by
        split <;> omega
      constructor
      · exact ⟨Nat.le_add_right _ _, h2, by omega⟩
      · omega
    next hts =>
      cases hstep
      unfold BsInv
      dsimp only
      constructor
      · exact ⟨Nat.le_add_right _ _, by omega, by omega⟩
      · omega
  next hfs =>
    cases hstep
    unfold BsInv
    dsimp only
    constructor
    · exact ⟨Nat.le_add_right _ _, by omega, by omega⟩
    · omega
  next hfs => exact absurd hstep (by simp)
  next hfs => exact absurd hstep (by simp)

theorem bs_run_isSome {data : List Char} {parse : List Char → PRes} {search : Int} :
    ∀ (fuel : Nat) (st : BsState), BsInv data st →
      st.ubound - st.lbound < fuel →
      (bs_run data parse search fuel st).isSome := by
  intro fuel
  induction fuel with
  | zero => intro st _ hlt; omega
  | succ fuel ih =>
    intro st hinv hlt
    simp only [bs_run]
    split
    · simp
    next hne =>
      cases hstep : bs_step data parse search st with
      | next st2 =>
        have hf := bs_step_next_facts hinv hne hstep
        exact ih st2 hf.1 (by omega)
      | stop r => simp

theorem binary_search_isSome (data : List Char) (parse : List Char → PRes)
    (search : Int) (lbound : Nat) (h : lbound ≤ data.length) :
    ∃ r, binary_search data lbound search parse = some r := by
  rw [← Option.isSome_iff_exists]
  unfold binary_search
  apply bs_run_isSome
  · exact ⟨Nat.le_add_right _ _, le_refl _, by dsimp only; omega⟩
  · dsimp only
    omega

theorem get_string_null_of_no_nl (data : List Char) (pos : Nat)
    (h : ∀ c ∈ data, c ≠ '\n') : get_string data pos = GsRes.null := by
  have hget : data[pos]? ≠ some '\n' := by
    intro hc
    have hmem : '\n' ∈ data := by
      obtain ⟨hlt, heq⟩ := List.getElem?_eq_some.mp hc
      exact heq ▸ List.getElem_mem hlt
    exact h '\n' hmem rfl
  have hlast : lastNlIdx (data.take pos) = none :=
    lastNlIdx_none_of_no_nl _ (fun c hc => h c (List.take_subset pos data hc))
  have hfirst : firstNlIdx (data.drop pos) = none :=
    firstNlIdx_none_of_no_nl _ (fun c hc => h c (List.drop_subset pos data hc))
  unfold get_string gs_start gs_stop
  rw [hlast, hfirst]
  simp [hget]

theorem binary_search_null_of_no_nl (data : List Char) (parse : List Char → PRes)
    (search : Int) (h : ∀ c ∈ data, c ≠ '\n') :
    binary_search data 0 search parse = some BsOut.null := by
  unfold binary_search
  by_cases hz : (0 : Nat) + (data.length - 0) / 2 = 0
  · simp only [bs_run, hz]
    rfl
  · have hmid : 0 < (0 : Nat) + (data.length - 0) / 2 := Nat.pos_of_ne_zero hz
    have hmidlen : (0 : Nat) + (data.length - 0) / 2 < data.length := by omega
    simp only [bs_run]
    rw [if_neg (by omega)]
    have hfs : forward_search data ((0 : Nat) + (data.length - 0) / 2) data.length parse
        = FsOut.null := by
      unfold forward_search
      obtain ⟨k, hk⟩ : ∃ k, data.length - ((0 : Nat) + (data.length - 0) / 2) = k + 1 :=
        ⟨data.length - ((0 : Nat) + (data.length - 0) / 2) - 1, by omega⟩
      rw [hk]
      simp only [fs_run]
      rw [if_pos hmidlen, get_string_null_of_no_nl data _ h]
    unfold bs_step
    dsimp only
    rw [hfs]

/-- C5: for every input buffer, window bound and parser context the binary
searcher terminates (the iteration budget `size + 1` supplied by
`binary_search` is never exhausted), and on every continuing iteration of
the loop the working interval `ubound - lbound` strictly shrinks — also
when the probe returns NotFound, in which case `ubound` collapses to the
old midpoint and the new midpoint is taken inside `[lbound, middle_old)`. -/
theorem c5_binary_search_terminates :
    (∀ (data : List Char) (parse : List Char → PRes) (search : Int) (lbound : Nat),
        lbound ≤ data.length → ∃ r, binary_search data lbound search parse = some r) ∧
    (∀ (data : List Char) (parse : List Char → PRes) (search : Int) (st st' : BsState),
        BsInv data st → st.lbound ≠ st.middle →
        bs_step data parse search st = BsStepOut.next st' →
        st'.ubound - st'.lbound < st.ubound - st.lbound) :=
  ⟨fun data parse search lbound h => binary_search_isSome data parse search lbound h,
   fun _ _ _ _ _ hinv hne hstep => (bs_step_next_facts hinv hne hstep).2⟩

/-- Witness for C5 at a concrete buffer, parser and loop state. -/
theorem c5_binary_search_terminates_witness :
    (∃ r, binary_search ['a', '\n'] 0 0 parse_none = some r) ∧
    ((⟨0, 0, 1, TgRes.notFound⟩ : BsState).ubound -
        (⟨0, 0, 1, TgRes.notFound⟩ : BsState).lbound <
      (⟨0, 1, 2, TgRes.null⟩ : BsState).ubound -
        (⟨0, 1, 2, TgRes.null⟩ : BsState).lbound) :=
  ⟨c5_binary_search_terminates.1 ['a', '\n'] parse_none 0 0 (by decide),
   c5_binary_search_terminates.2 ['a', '\n'] parse_none 0
     ⟨0, 1, 2, TgRes.null⟩ ⟨0, 0, 1, TgRes.notFound⟩
     (by decide) (by decide) (by decide)⟩

/-- C10: a mapped file containing no newline byte at all makes the line
locator report TG_NULL, which `binary_search` and `file_timegrep`
propagate without emitting anything, and the process exit code for such a
file is 1 — regardless of the window and of the parser (so also when the
single line's timestamp would lie inside the window). -/
theorem c10_no_newline_file (data : List Char) (parse : List Char → PRes)
    (s t : Int) (hne : data ≠ []) (hnl : ∀ c ∈ data, c ≠ '\n') :
    file_timegrep data s t parse = (TgRes.null, []) ∧
    process_files parse s t [data] TgRes.found = (1, []) := by
  have hfile : file_timegrep data s t parse = (TgRes.null, []) := by
    unfold file_timegrep
    rw [binary_search_null_of_no_nl data parse s hnl]
  have hlen : ¬(data.length = 0) := by
    intro h0
    exact hne (List.length_eq_zero.mp h0)
  refine ⟨hfile, ?_⟩
  simp [process_files, tg_mmap, hlen, hfile]

/-- Witness for C10 at a concrete newline-free buffer. -/
theorem c10_no_newline_file_witness :
    file_timegrep ['a', 'b'] 0 10 parse_none = (TgRes.null, []) ∧
    process_files parse_none 0 10 [['a', 'b']] TgRes.found = (1, []) :=
  c10_no_newline_file ['a', 'b'] parse_none 0 10 (by decide) (by decide)

/-- Parser context for the monotone one-line log "ab\n": the line "ab"
carries timestamp 5. -/
def parse_ab : List Char → PRes :=
  fun l => if l = ['a', 'b'] then PRes.found 5 else PRes.notFound

/-- Timestamp function of the same log, for the spec-side window output. -/
def tsof_ab : List Char → Option Int :=
  fun l => if l = ['a', 'b'] then some 5 else none

/-- C1: window correctness fails on the code.  For the monotone
newline-terminated input "ab\n" whose single line has timestamp 5 and the
window [0, 10), the spec-prescribed output is "ab\n", and the stream
emitter produces exactly that, but the file emitter appends a second
newline (it writes the final newline whenever the emitted range reaches
the buffer end, also when the source's last line already has one), so the
two emitters disagree and the file emitter's bytes are not the prescribed
concatenation. -/
theorem c1_window_correctness_falsified :
    file_timegrep ['a', 'b', '\n'] 0 10 parse_ab = (TgRes.found, ['a', 'b', '\n', '\n']) ∧
    stream_timegrep ['a', 'b', '\n'] 0 10 parse_ab = (TgRes.found, ['a', 'b', '\n']) ∧
    spec_window_output ['a', 'b', '\n'] 0 10 tsof_ab = ['a', 'b', '\n'] ∧
    (['a', 'b', '\n', '\n'] : List Char) ≠ ['a', 'b', '\n'] := by
  refine ⟨by decide, by decide, by decide, by decide⟩

/-- Parser context for the monotone log "xx\na\n": line "xx" has timestamp
1, line "a" has timestamp 5. -/
def parse_xxa : List Char → PRes :=
  fun l =>
    if l = ['x', 'x'] then PRes.found 1
    else if l = ['a'] then PRes.found 5
    else PRes.notFound

/-- C2: on the input "xx\na\n" with window [3, 10) the first binary search
returns Found at position 3 (the start of line "a") and the second binary
search returns NotFound (its only probe lands on the trailing newline of
the last line), yet the file emitter does not set `hi = N`: it propagates
the NotFound and writes nothing, instead of emitting data[3..5) = "a\n"
as the claim states. -/
theorem c2_second_search_notfound_emits_nothing :
    binary_search ['x', 'x', '\n', 'a', '\n'] 0 3 parse_xxa = some (BsOut.found 3) ∧
    binary_search ['x', 'x', '\n', 'a', '\n'] 3 10 parse_xxa = some BsOut.notFound ∧
    file_timegrep ['x', 'x', '\n', 'a', '\n'] 3 10 parse_xxa = (TgRes.notFound, []) ∧
    ([] : List Char) ≠ ['a', '\n'] := by
  refine ⟨by decide, by decide, by decide, by decide⟩

/-- The capture copier of the C3 scenario: a match of the `default` format
against "2021-01-01 00:00:00", with capture groups year=1, month=2, day=3,
hour=4, minute=5, second=6 (the group numbers pcre assigns to
`(?P<year>..)-(?P<month>..)-(?P<day>..) (?P<hour>..):(?P<minute>..):(?P<second>..)`). -/
def copy_c3 : Int → Option (List Char) := fun i =>
  if i = 1 then some ['2', '0', '2', '1']
  else if i = 2 then some ['0', '1']
  else if i = 3 then some ['0', '1']
  else if i = 4 then some ['0', '0']
  else if i = 5 then some ['0', '0']
  else if i = 6 then some ['0', '0']
  else none

/-- The parser context of the C3 scenario: the `default` format has no
timezone and no timestamp group, so `pcre_get_stringnumber` returns
PCRE_ERROR_NOSUBSTRING (-7) for `timezone`, `timestamp` and `month_t`. -/
def opt_c3 : ExtraOpt := ⟨1, 2, -7, 3, 4, 5, 6, -7, -7, false⟩

/-- C3: in the non-fallback path, when the match contains no timezone
capture group, the code does not subtract LOCAL_TZ_OFFSET.  `has_timezone`
is -7 (PCRE_ERROR_NOSUBSTRING), the selection tests `has_timezone == 0`,
so the code subtracts the zero-initialized `tm.tm_gmtoff` instead: with a
local offset of 3600 seconds the result for "2021-01-01 00:00:00" is
1609459200 — independent of the local offset — where the claim prescribes
1609459200 - 3600. -/
theorem c3_local_offset_ignored :
    tg_strptime_re copy_c3 opt_c3 3600 = ReRes.found 1609459200 ∧
    tg_strptime_re copy_c3 opt_c3 0 = ReRes.found 1609459200 ∧
    ((1609459200 : Int) - 3600 ≠ 1609459200) := by
  refine ⟨by decide, by decide, by decide⟩

/-- C8 counterexample: a zero-length input file is not skipped.  Mapping it
fails (POSIX mmap rejects length 0), the program takes the error exit with
code 2 and the following file is never processed — against the claim that
the file is skipped with no error and processing continues. -/
theorem c8_counterexample_empty_file_errors :
    process_files parse_none 0 10 [[], ['a', '\n']] TgRes.found = (2, []) ∧
    ((2 : Nat), ([] : List Char)) ≠ (1, []) := by
  refine ⟨by decide, by decide⟩

/-- C8 amended: a zero-length input file is not skipped; mapping it fails
at the memory-mapping boundary and the program exits with code 2
immediately, emitting nothing for it and processing no further files. -/
theorem c8_amended_empty_file_exit2 (parse : List Char → PRes) (s t : Int)
    (rest : List (List Char)) (last : TgRes) :
    process_files parse s t ([] :: rest) last = (2, []) := by
  simp [process_files, tg_mmap]

/-- C7 counterexample: the length-2 token "EX" is not one of the accepted
timezone names, so per the claim it should yield the error value, but the
decoder dispatches on the first character only ('E' with second character
not 'S') and returns -4 hours. -/
theorem c7_counterexample_ex_token :
    atogmtoff ['E', 'X'] = -14400 ∧ atogmtoff ['E', 'X'] ≠ TG_LONG_MIN := by
  refine ⟨by decide, by decide⟩

/-- C7 amended: the decoder dispatches on the token length alone.  Tokens
of length 5 and 6 always take the ±HHMM / ±HH:MM digit arithmetic on their
raw characters (sign negative exactly when the first byte is a minus, the
length-6 separator byte ignored), which on digit tokens is
sign·(HH·3600 + MM·60).  Length-1 tokens follow the RFC-822 military table
(Z = 0, A..M = -1h..-12h excluding J, N..Y = +1h..+12h) and every other
single character yields the error value.  Any other token of length >= 2
is dispatched on its first one or two characters (U and G give 0, E gives
-5h if the second byte is S else -4h, C gives -6h or -5h, M gives -7h or
-6h, P gives -8h or -7h, matching the eleven accepted names), and any other
initial yields the error value, as does the empty token. -/
theorem c7_amended_decoder_table :
    (∀ c1 c2 c3 c4 : Char,
        atogmtoff ['+', c1, c2, c3, c4] =
          (dig c1 * 10 + dig c2) * 60 * 60 + (dig c3 * 10 + dig c4) * 60 ∧
        atogmtoff ['-', c1, c2, c3, c4] =
          -((dig c1 * 10 + dig c2) * 60 * 60 + (dig c3 * 10 + dig c4) * 60)) ∧
    (∀ c1 c2 sep c3 c4 : Char,
        atogmtoff ['+', c1, c2, sep, c3, c4] =
          (dig c1 * 10 + dig c2) * 60 * 60 + (dig c3 * 10 + dig c4) * 60 ∧
        atogmtoff ['-', c1, c2, sep, c3, c4] =
          -((dig c1 * 10 + dig c2) * 60 * 60 + (dig c3 * 10 + dig c4) * 60)) ∧
    (atogmtoff ['Z'] = 0 ∧ atogmtoff ['A'] = -3600 ∧ atogmtoff ['B'] = -7200 ∧
     atogmtoff ['C'] = -10800 ∧ atogmtoff ['D'] = -14400 ∧ atogmtoff ['E'] = -18000 ∧
     atogmtoff ['F'] = -21600 ∧ atogmtoff ['G'] = -25200 ∧ atogmtoff ['H'] = -28800 ∧
     atogmtoff ['I'] = -32400 ∧ atogmtoff ['K'] = -36000 ∧ atogmtoff ['L'] = -39600 ∧
     atogmtoff ['M'] = -43200 ∧ atogmtoff ['N'] = 3600 ∧ atogmtoff ['O'] = 7200 ∧
     atogmtoff ['P'] = 10800 ∧ atogmtoff ['Q'] = 14400 ∧ atogmtoff ['R'] = 18000 ∧
     atogmtoff ['S'] = 21600 ∧ atogmtoff ['T'] = 25200 ∧ atogmtoff ['U'] = 28800 ∧
     atogmtoff ['V'] = 32400 ∧ atogmtoff ['W'] = 36000 ∧ atogmtoff ['X'] = 39600 ∧
     atogmtoff ['Y'] = 43200 ∧ atogmtoff ['J'] = TG_LONG_MIN) ∧
    (∀ c : Char, military_hours c = none → atogmtoff [c] = TG_LONG_MIN) ∧
    (atogmtoff ['U', 'T'] = 0 ∧ atogmtoff ['U', 'T', 'C'] = 0 ∧
     atogmtoff ['G', 'M', 'T'] = 0 ∧ atogmtoff ['E', 'S', 'T'] = -18000 ∧
     atogmtoff ['E', 'D', 'T'] = -14400 ∧ atogmtoff ['C', 'S', 'T'] = -21600 ∧
     atogmtoff ['C', 'D', 'T'] = -18000 ∧ atogmtoff ['M', 'S', 'T'] = -25200 ∧
     atogmtoff ['M', 'D', 'T'] = -21600 ∧ atogmtoff ['P', 'S', 'T'] = -28800 ∧
     atogmtoff ['P', 'D', 'T'] = -25200) ∧
    (∀ (c0 c1 : Char) (rest : List Char),
        (c0 :: c1 :: rest).length ≠ 5 → (c0 :: c1 :: rest).length ≠ 6 →
        atogmtoff (c0 :: c1 :: rest) =
          match name_hours c0 c1 with
          | none => TG_LONG_MIN
          | some v => v * 60 * 60) ∧
    (∀ c0 c1 : Char, c0 ≠ 'U' → c0 ≠ 'G' → c0 ≠ 'E' → c0 ≠ 'C' → c0 ≠ 'M' → c0 ≠ 'P' →
        name_hours c0 c1 = none) ∧
    atogmtoff [] = TG_LONG_MIN := by
  refine ⟨?_, ?_, by decide, ?_, by decide, ?_, ?_, by decide⟩
  · intro c1 c2 c3 c4
    exact ⟨rfl, rfl⟩
  · intro c1 c2 sep c3 c4
    exact ⟨rfl, rfl⟩
  · intro c h
    unfold atogmtoff
    rw [if_neg (by simp), if_neg (by simp), if_pos (by simp)]
    show (match military_hours c with
          | none => TG_LONG_MIN
          | some v => v * 60 * 60) = TG_LONG_MIN
    rw [h]
  · intro c0 c1 rest h5 h6
    unfold atogmtoff
    rw [if_neg h5, if_neg h6, if_neg (by simp), if_pos (by simp)]
    rfl
  · intro c0 c1 hU hG hE hC hM hP
    simp [name_hours, hU, hG, hE, hC, hM, hP]

/-- Witness for C7's amended dispatch clause at the concrete token "EXX". -/
theorem c7_amended_decoder_table_witness :
    atogmtoff ['E', 'X', 'X'] =
      (match name_hours 'E' 'X' with
       | none => TG_LONG_MIN
       | some v => v * 60 * 60) :=
  c7_amended_decoder_table.2.2.2.2.2.1 'E' 'X' ['X'] (by decide) (by decide)

/-! ## Lemmas about the format compiler -/

theorem sr_check_fallback (o : ExtraOpt)
    (hts : 0 < (sr_check o).has_timestamp)
    (hsum : 1 < (sr_check o).has_year + (sr_check o).has_month + (sr_check o).has_month_t +
      (sr_check o).has_day + (sr_check o).has_hour + (sr_check o).has_minute +
      (sr_check o).has_second) :
    (sr_check o).fallback = true := by
  by_cases h : 1 < o.has_year ∨ 1 < o.has_month ∨ 1 < o.has_month_t ∨ 1 < o.has_day ∨
     1 < o.has_hour ∨ 1 < o.has_minute ∨ 1 < o.has_second ∨ 1 < o.has_timezone ∨
     1 < o.has_timestamp ∨ 1 < o.has_month + o.has_month_t ∨
     (0 < o.has_timestamp ∧
      1 < o.has_year + o.has_month + o.has_month_t + o.has_day + o.has_hour +
          o.has_minute + o.has_second)
  · unfold sr_check
    rw [if_pos h]
  · unfold sr_check at hts hsum
    rw [if_neg h] at hts hsum
    exact absurd (by tauto) h

/-- C4 counterexample: the format "%s%Y" combines the timestamp directive
with one other date/time kind, is accepted by the compiler, and yet the
returned metadata does not have the fallback flag set (the post-scan check
requires the other counts to sum to more than 1, not more than 0). -/
theorem c4_counterexample_s_with_one_kind :
    strptime_regex true ['%', 's', '%', 'Y'] =
      some (38, "(?P<timestamp>\\d\x7b1,20\x7d)(?P<year>\\d\x7b4\x7d)".data,
        ⟨1, 0, 0, 0, 0, 0, 0, 0, 1, false⟩) ∧
    (⟨1, 0, 0, 0, 0, 0, 0, 0, 1, false⟩ : ExtraOpt).fallback = false := by
  refine ⟨by decide, rfl⟩

/-- C4 amended: the compiler forces fallback when the timestamp directive
occurs together with at least two other date/time kind occurrences, i.e.
whenever the returned counts have `has_timestamp > 0` and the seven
date/time counts sum to more than 1. -/
theorem c4_amended_fallback_two_kinds (fmt : List Char) (n : Nat) (b : List Char)
    (o : ExtraOpt) (h : strptime_regex true fmt = some (n, b, o))
    (hts : 0 < o.has_timestamp)
    (hsum : 1 < o.has_year + o.has_month + o.has_month_t + o.has_day + o.has_hour +
      o.has_minute + o.has_second) :
    o.fallback = true := by
  unfold strptime_regex sr_wrap at h
  cases hscan : sr_scan sr2 true fmt opt0 with
  | none => rw [hscan] at h; exact absurd h (by simp)
  | some x =>
    obtain ⟨n0, b0, o0⟩ := x
    rw [hscan] at h
    simp only [Option.some.injEq, Prod.mk.injEq] at h
    obtain ⟨-, -, ho⟩ := h
    subst ho
    exact sr_check_fallback o0 hts hsum

/-- Witness for C4's amended claim at the concrete format "%s%Y%m". -/
theorem c4_amended_fallback_two_kinds_witness :
    (⟨1, 1, 0, 0, 0, 0, 0, 0, 1, true⟩ : ExtraOpt).fallback = true :=
  c4_amended_fallback_two_kinds ['%', 's', '%', 'Y', '%', 'm'] 63
    "(?P<timestamp>\\d\x7b1,20\x7d)(?P<year>\\d\x7b4\x7d)(?P<month>1[0-2]|0?[1-9])".data
    ⟨1, 1, 0, 0, 0, 0, 0, 0, 1, true⟩ (by decide) (by decide) (by decide)

/-- The two-pass agreement property of a compiler call: the length pass
(`emit = false`, the C call with `regex == NULL`) writes nothing and
returns some length and metadata, and then the emission pass returns the
same length and the same metadata and writes exactly that many bytes. -/
def PassRel (f : Bool → List Char → ExtraOpt → Option (Nat × List Char × ExtraOpt)) : Prop :=
  ∀ fmt opt n b o, f false fmt opt = some (n, b, o) →
    b = [] ∧ ∃ b2, f true fmt opt = some (n, b2, o) ∧ b2.length = n

theorem pass_rel_bot : PassRel (fun _ _ _ => none) := by
  intro fmt opt n b o h
  simp at h

theorem sr_scan_pass (onC : Bool → List Char → ExtraOpt → Option (Nat × List Char × ExtraOpt))
    (hC : PassRel onC) :
    ∀ (L : Nat) (fmt : List Char), fmt.length ≤ L → ∀ opt n b o,
      sr_scan onC false fmt opt = some (n, b, o) →
      b = [] ∧ ∃ b2, sr_scan onC true fmt opt = some (n, b2, o) ∧ b2.length = n := by
  intro L
  induction L with
  | zero =>
    intro fmt hlen opt n b o h
    have hfmt : fmt = [] := List.length_eq_zero.mp (Nat.le_zero.mp hlen)
    subst hfmt
    simp only [sr_scan, Option.some.injEq, Prod.mk.injEq] at h
    obtain ⟨hn, hb, ho⟩ := h
    subst hn hb ho
    exact ⟨rfl, [], rfl, rfl⟩
  | succ L ih =>
    intro fmt hlen opt n b o h
    cases fmt with
    | nil =>
      simp only [sr_scan, Option.some.injEq, Prod.mk.injEq] at h
      obtain ⟨hn, hb, ho⟩ := h
      subst hn hb ho
      exact ⟨rfl, [], rfl, rfl⟩
    | cons c rest =>
      rw [sr_scan.eq_def] at h
      dsimp only at h
      by_cases hc : c = '%'
      · rw [if_pos hc] at h
        cases rest with
        | nil => exact absurd h (by simp)
        | cons d rest2 =>
          dsimp only at h
          have hlen2 : rest2.length ≤ L := by
            simp only [List.length_cons] at hlen
            omega
          cases hdir : sr_directive d with
          | bad => rw [hdir] at h; exact absurd h (by simp)
          | lit part upd =>
            rw [hdir] at h
            dsimp only at h
            cases hrec : sr_scan onC false rest2 (upd opt) with
            | none => rw [hrec] at h; exact absurd h (by simp)
            | some x =>
              obtain ⟨n1, b1, o1⟩ := x
              rw [hrec] at h
              simp only [Option.some.injEq, Prod.mk.injEq, List.nil_append,
                Bool.false_eq_true, if_false] at h
              obtain ⟨hn, hb, ho⟩ := h
              obtain ⟨hb1, b2, htrue, hl2⟩ := ih rest2 hlen2 (upd opt) n1 b1 o1 hrec
              subst hn ho hb hb1
              refine ⟨rfl, part ++ b2, ?_, by simp [hl2]⟩
              rw [sr_scan.eq_def]
              dsimp only
              rw [if_pos hc, hdir]
              dsimp only
              rw [htrue]
              rfl
          | sub subfmt =>
            rw [hdir] at h
            dsimp only at h
            cases hsub : onC false subfmt opt with
            | none => rw [hsub] at h; exact absurd h (by simp)
            | some x =>
              obtain ⟨n1, b1, o1⟩ := x
              rw [hsub] at h
              dsimp only at h
              cases hrec : sr_scan onC false rest2 o1 with
              | none => rw [hrec] at h; exact absurd h (by simp)
              | some y =>
                obtain ⟨n2, b2, o2⟩ := y
                rw [hrec] at h
                simp only [Option.some.injEq, Prod.mk.injEq] at h
                obtain ⟨hn, hb, ho⟩ := h
                obtain ⟨hb1, b1t, hsubt, hl1⟩ := hC subfmt opt n1 b1 o1 hsub
                obtain ⟨hb2, b2t, htrue, hl2⟩ := ih rest2 hlen2 o1 n2 b2 o2 hrec
                subst hn ho hb1 hb2
                simp only [List.nil_append] at hb
                subst hb
                refine ⟨rfl, b1t ++ b2t, ?_, by simp [hl1, hl2]⟩
                rw [sr_scan.eq_def]
                dsimp only
                rw [if_pos hc, hdir]
                dsimp only
                rw [hsubt]
                dsimp only
                rw [htrue]
      · rw [if_neg hc] at h
        have hlen1 : rest.length ≤ L := by
          simp only [List.length_cons] at hlen
          omega
        cases hrec : sr_scan onC false rest opt with
        | none => rw [hrec] at h; exact absurd h (by simp)
        | some x =>
          obtain ⟨n1, b1, o1⟩ := x
          rw [hrec] at h
          simp only [Option.some.injEq, Prod.mk.injEq, List.nil_append,
            Bool.false_eq_true, if_false] at h
          obtain ⟨hn, hb, ho⟩ := h
          obtain ⟨hb1, b2, htrue, hl2⟩ := ih rest hlen1 opt n1 b1 o1 hrec
          subst hn ho hb hb1
          refine ⟨rfl, (if escChar c then ['\\', c] else [c]) ++ b2, ?_, by simp [hl2]⟩
          rw [sr_scan.eq_def]
          dsimp only
          rw [if_neg hc]
          rw [htrue]
          rfl

theorem sr_wrap_pass (f : Bool → List Char → ExtraOpt → Option (Nat × List Char × ExtraOpt))
    (hf : PassRel f) : PassRel (sr_wrap f) := by
  intro fmt opt n b o h
  unfold sr_wrap at h ⊢
  cases hs : sr_scan f false fmt opt with
  | none => rw [hs] at h; exact absurd h (by simp)
  | some x =>
    obtain ⟨n0, b0, o0⟩ := x
    rw [hs] at h
    simp only [Option.some.injEq, Prod.mk.injEq] at h
    obtain ⟨hn, hb, ho⟩ := h
    obtain ⟨hb0, b2, htrue, hl⟩ := sr_scan_pass f hf fmt.length fmt (le_refl _) opt n0 b0 o0 hs
    rw [htrue]
    subst hn hb ho hb0
    exact ⟨rfl, b2, rfl, hl⟩

/-- C6: running the compiler with no output buffer and then with a buffer
returns the same regex length and identical metadata, the length pass
writes nothing, and the emission pass writes exactly the returned number
of bytes. -/
theorem c6_two_pass_agreement (fmt : List Char) (n : Nat) (b : List Char) (o : ExtraOpt)
    (h : strptime_regex false fmt = some (n, b, o)) :
    b = [] ∧ ∃ b2, strptime_regex true fmt = some (n, b2, o) ∧ b2.length = n := by
  have h0 : PassRel sr0 := by unfold sr0; exact sr_wrap_pass _ pass_rel_bot
  have h1 : PassRel sr1 := by unfold sr1; exact sr_wrap_pass _ h0
  have h2 : PassRel sr2 := by unfold sr2; exact sr_wrap_pass _ h1
  exact sr_wrap_pass _ h2 fmt opt0 n b o h

/-- Witness for C6 at the concrete format "%Y". -/
theorem c6_two_pass_agreement_witness :
    ([] : List Char) = [] ∧
    ∃ b2, strptime_regex true ['%', 'Y'] = some (15, b2, ⟨1, 0, 0, 0, 0, 0, 0, 0, 0, false⟩) ∧
      b2.length = 15 :=
  c6_two_pass_agreement ['%', 'Y'] 15 [] ⟨1, 0, 0, 0, 0, 0, 0, 0, 0, false⟩ (by decide)

/-! ## Lemmas about the stream emitter -/

theorem st_run_tail_dropped (parse : List Char → PRes) (s t : Int)
    (tail : List Char) (htail : firstNlIdx tail = none) :
    ∀ (f2 : Nat) (body : List Char) (f1 : Nat) (stream : Bool),
      (body ++ tail).length < f1 → body.length < f2 →
      st_run parse s t f1 (body ++ tail) stream = st_run parse s t f2 body stream := by
  intro f2
  induction f2 with
  | zero => intro body f1 stream h1 h2; omega
  | succ f2 ih =>
    intro body f1 stream h1 h2
    cases f1 with
    | zero => omega
    | succ f1 =>
      rw [st_run.eq_def]
      rw [st_run.eq_def]
      dsimp only
      cases hbody : firstNlIdx body with
      | none =>
        rw [firstNlIdx_append_none body tail hbody htail]
      | some i =>
        have hi : i < body.length := firstNlIdx_lt_length body i hbody
        have htake : (body ++ tail).take i = body.take i :=
          List.take_append_of_le_length (by omega)
        have htake1 : (body ++ tail).take (i + 1) = body.take (i + 1) :=
          List.take_append_of_le_length (by omega)
        have hdrop : (body ++ tail).drop (i + 1) = body.drop (i + 1) ++ tail :=
          List.drop_append_of_le_length (by omega)
        have hlen1 : (body.drop (i + 1) ++ tail).length < f1 := by
          simp only [List.length_append, List.length_drop] at h1 ⊢
          omega
        have hlen2 : (body.drop (i + 1)).length < f2 := by
          simp only [List.length_drop]
          omega
        rw [firstNlIdx_append_some body tail i hbody]
        dsimp only
        rw [htake]
        cases hp : parse (body.take i) with
        | error => rfl
        | found ts =>
          dsimp only
          split
          · rfl
          · rw [htake1, hdrop,
              ih (body.drop (i + 1)) f1 (stream || decide (s ≤ ts)) hlen1 hlen2]
        | notFound =>
          dsimp only
          rw [htake1, hdrop, ih (body.drop (i + 1)) f1 stream hlen1 hlen2]

/-- C9: when the streamed input ends without a trailing newline, the
unterminated final line is never emitted or examined: the stream emitter
behaves exactly as if the bytes after the last newline were absent,
whatever their timestamp would have been, because end of file with a
partial line in the buffer is reported as NotFound and terminates the
loop. -/
theorem c9_unterminated_tail_dropped (parse : List Char → PRes) (s t : Int)
    (body tail : List Char) (htail : ∀ c ∈ tail, c ≠ '\n') :
    stream_timegrep (body ++ tail) s t parse = stream_timegrep body s t parse := by
  unfold stream_timegrep
  exact st_run_tail_dropped parse s t tail (firstNlIdx_none_of_no_nl tail htail)
    (body.length + 1) body ((body ++ tail).length + 1) false
    (by omega) (by omega)

/-- Witness for C9: the in-window unterminated tail "zz" after "ab\n" is
dropped by the stream emitter. -/
theorem c9_unterminated_tail_dropped_witness :
    stream_timegrep (['a', 'b', '\n'] ++ ['z', 'z']) 0 10 parse_ab =
      stream_timegrep ['a', 'b', '\n'] 0 10 parse_ab :=
  c9_unterminated_tail_dropped parse_ab 0 10 ['a', 'b', '\n'] ['z', 'z'] (by decide)



